import Mathlib

/-!
Verification of the TeleQuizBot core (src/bot.py): the per-user quiz session
state machine, its leaderboard projection, and its persistence layer, shallowly
embedded in Lean 4.  Python dicts are modelled as association lists (Python
dicts preserve insertion order, which the leaderboard's stable sort observes);
the `ConversationHandler` wiring of `main` is modelled as a per-user
conversation state that gates which handler an inbound event reaches.
-/

/-- A player session record, mirroring the dict
`{"name": str, "score": int, "q_index": int}` stored in `players`
(src/bot.py line 28). `score` and `q_index` only ever start at 0 and are
incremented, so they are modelled as `Nat`. -/
structure PlayerRec where
  name : String
  score : Nat
  q_index : Nat
deriving DecidableEq, Repr

/-- The question bank (src/bot.py lines 31-37): `(question, options, correct_index)`. -/
def questions : List (String × List String × Nat) :=
  [("What is the capital of France?", ["Berlin", "Madrid", "Paris", "Rome"], 2),
   ("Who wrote \x27Hamlet\x27?", ["Tolstoy", "Shakespeare", "Homer", "Goethe"], 1),
   ("What is 5 * 6?", ["11", "30", "56", "60"], 1),
   ("Which planet is the Red Planet?", ["Venus", "Mars", "Jupiter", "Mercury"], 1),
   ("What is the largest mammal?", ["Elephant", "Blue Whale", "Giraffe", "Hippo"], 1)]

/-- The players mapping `user_id(str) -> PlayerRec`, as an insertion-ordered
association list (Python dict semantics). -/
abbrev Players := List (String × PlayerRec)

/-- Python dict assignment `d[k] = v`: replace in place if the key is present
(keeping its position), otherwise append at the end. -/
def setA {β : Type} (k : String) (v : β) : List (String × β) → List (String × β)
  | [] => [(k, v)]
  | e :: t => if e.1 = k then (k, v) :: t else e :: setA k v t

/-- Python `d.pop(k, None)`: drop the key if present. -/
def removeA {β : Type} (k : String) (l : List (String × β)) : List (String × β) :=
  l.filter (fun e => !(e.1 == k))

/-- Whitespace for Python `str.strip()`. -/
def isSpaceChar (c : Char) : Bool :=
  c == ' ' || c == '\t' || c == '\n' || c == '\r'

/-- Python `s.strip()`: drop leading and trailing whitespace. -/
def stripChars (cs : List Char) : List Char :=
  ((cs.dropWhile isSpaceChar).reverse.dropWhile isSpaceChar).reverse

/-- Value of `int(s)` digit accumulation. -/
def digitsToNat (cs : List Char) : Nat :=
  cs.foldl (fun a c => a * 10 + (c.toNat - 48)) 0

/-- Model of Python `int(query.data)` (src/bot.py line 147): strip surrounding
whitespace, accept an optional sign followed by a non-empty digit string,
raise `ValueError` (here: `none`) otherwise. -/
def parseInt (s : String) : Option Int :=
  match stripChars s.toList with
  | [] => none
  | c :: rest =>
    let ds := if c = '-' ∨ c = '+' then rest else c :: rest
    if ds.isEmpty then none
    else if ds.all Char.isDigit then
      let n : Int := Int.ofNat (digitsToNat ds)
      some (if c = '-' then -n else n)
    else none

/-- Conversation state of one user inside the `ConversationHandler`
(src/bot.py lines 259-271): `ASK_NAME`, `ASK_QUESTIONS`, or no active
conversation (`ConversationHandler.END` / never started). -/
inductive ConvState
  | idle
  | askName
  | askQuestions
deriving DecidableEq, Repr

/-- The observable bot state: the `players` mapping plus the per-user
conversation state kept by the conversation library. -/
structure BotState where
  players : Players
  conv : List (String × ConvState)
deriving DecidableEq, Repr

/-- Conversation state of a user; a user with no record has no active
conversation. -/
def getConv (u : String) (c : List (String × ConvState)) : ConvState :=
  (List.lookup u c).getD ConvState.idle

/-- Inbound events from the messaging gateway, as dispatched by the handler
registration in `main` (src/bot.py lines 259-276). -/
inductive Event
  | startCmd (u : String)
  | textMsg (u : String) (content : String)
  | buttonTap (u : String) (payload : String)
  | cancelCmd (u : String)
  | resetCmd (u : String)
  | lbCmd (u : String)
deriving DecidableEq, Repr

/-- One line of leaderboard output: the header, a ranked
`"{rank}. {name} - {score}"` row, or the `"..."` ellipsis marker. -/
inductive LBLine
  | header
  | row (rank : Nat) (name : String) (score : Nat)
  | ellipsis
deriving DecidableEq, Repr

/-- Outbound messages, one constructor per distinct message the handlers send. -/
inductive Msg
  | welcome
  | emptyNameReprompt
  | greet (name : String)
  | question (i : Nat) (text : String) (options : List String)
  | correctMsg
  | wrongMsg (correctText : String)
  | alreadyFinished
  | finishSummary (score : Nat) (lines : List LBLine)
  | cancelled
  | resetDone
  | lbView (lines : List LBLine)
  | noScores
deriving DecidableEq, Repr

/-- Stable insertion of a record into a descending-by-score list: the new
record goes after every record already present whose score is ≥ its own. -/
def insertDesc (p : PlayerRec) : List PlayerRec → List PlayerRec
  | [] => [p]
  | q :: l => if p.score ≤ q.score then q :: insertDesc p l else p :: q :: l

/-- Model of `sorted(players.values(), key=lambda x: x["score"], reverse=True)`
(src/bot.py lines 173 and 221): a stable sort, descending by score.  The
theorems below certify descending sortedness and stability (equal scores keep
their snapshot order), the two properties Python guarantees for this call. -/
def sortByScoreDesc (l : List PlayerRec) : List PlayerRec :=
  l.foldl (fun acc p => insertDesc p acc) []

/-- `for i, p in enumerate(leaderboard[:10], start=1)` (src/bot.py lines
175-176 and 223-224): top ten rows, 1-indexed ranks by sorted position. -/
def topRows (lb : List PlayerRec) : List LBLine :=
  (lb.take 10).enum.map (fun e => LBLine.row (e.1 + 1) e.2.name e.2.score)

/-- The finishing user's rank (src/bot.py lines 179-183):
`leaderboard.index(player) + 1` finds the FIRST session field-equal to the
user's record; Python `==` on dicts is field equality.  When no field-equal
record exists, `.index` raises and the fallback identity scan
(`p is player`) finds nothing (the default dict is a fresh object), yielding
`len(leaderboard)`. -/
def computedRank (lb : List PlayerRec) (p : PlayerRec) : Nat :=
  if lb.contains p then lb.indexOf p + 1 else lb.length

/-- The leaderboard block of the finish message (src/bot.py lines 173-187):
header, top-10 rows, and — only when the computed rank exceeds 10 — an
ellipsis plus the user's own row. -/
def finishLines (p : PlayerRec) (snapshot : List PlayerRec) : List LBLine :=
  let lb := sortByScoreDesc snapshot
  let rank := computedRank lb p
  (LBLine.header :: topRows lb)
    ++ (if rank > 10 then [LBLine.ellipsis, LBLine.row rank p.name p.score] else [])

/-- `finish_quiz` (src/bot.py lines 168-194): read the user's record (a fresh
default when absent) and emit the finish summary. -/
def finishQuiz (u : String) (players : Players) : Msg :=
  let p := (List.lookup u players).getD ⟨"You", 0, 0⟩
  Msg.finishSummary p.score (finishLines p (players.map Prod.snd))

/-- `ask_question` (src/bot.py lines 106-125): bootstrap a missing session,
then either prompt the current question (staying in `ASK_QUESTIONS`) or run
`finish_quiz` and end the conversation. -/
def askQuestion (u : String) (players : Players) : Players × List Msg × ConvState :=
  let players :=
    if (List.lookup u players).isSome then players else setA u ⟨"", 0, 0⟩ players
  let p := (List.lookup u players).getD ⟨"", 0, 0⟩
  if p.q_index < questions.length then
    let q := questions.getD p.q_index ("", [], 0)
    (players, [Msg.question p.q_index q.1 q.2.1], ConvState.askQuestions)
  else
    (players, [finishQuiz u players], ConvState.idle)

/-- `handle_answer` (src/bot.py lines 128-165): bootstrap a missing session;
ignore taps once `q_index` has reached the end; otherwise parse the payload
(`-1` on `ValueError`), compare to `correct_index`, increment `score` on a
match, always increment `q_index`, then ask the next question or finish. -/
def handleAnswer (u : String) (payload : String) (players : Players) :
    Players × List Msg × ConvState :=
  let players :=
    if (List.lookup u players).isSome then players else setA u ⟨"", 0, 0⟩ players
  let p := (List.lookup u players).getD ⟨"", 0, 0⟩
  if p.q_index ≥ questions.length then
    (players, [Msg.alreadyFinished], ConvState.idle)
  else
    let chosen : Int := (parseInt payload).getD (-1)
    let q := questions.getD p.q_index ("", [], 0)
    let correctIdx := q.2.2
    let hit := chosen = Int.ofNat correctIdx
    let verdict := if hit then Msg.correctMsg else Msg.wrongMsg (q.2.1.getD correctIdx "")
    let p2 : PlayerRec :=
      ⟨p.name, if hit then p.score + 1 else p.score, p.q_index + 1⟩
    let players := setA u p2 players
    let r := askQuestion u players
    (r.1, verdict :: r.2.1, r.2.2)

/-- `ask_name` (src/bot.py lines 91-103): an empty trimmed name re-prompts
without touching state; otherwise the session is rewritten fresh with the name
and the first question is asked. -/
def askNameHandler (u : String) (content : String) (players : Players) :
    Players × List Msg × ConvState :=
  let name := stripChars content.toList
  if name.isEmpty then (players, [Msg.emptyNameReprompt], ConvState.askName)
  else
    let players := setA u ⟨⟨name⟩, 0, 0⟩ players
    let r := askQuestion u players
    (r.1, Msg.greet ⟨name⟩ :: r.2.1, r.2.2)

/-- `start` (src/bot.py lines 80-88): reset the user's record to a fresh
session from any state and enter `ASK_NAME`. -/
def startHandler (u : String) (players : Players) : Players × List Msg × ConvState :=
  (setA u ⟨"", 0, 0⟩ players, [Msg.welcome], ConvState.askName)

/-- `leaderboard_cmd` (src/bot.py lines 215-225). -/
def leaderboardCmd (players : Players) : Msg :=
  if players.isEmpty then Msg.noScores
  else Msg.lbView (LBLine.header :: topRows (sortByScoreDesc (players.map Prod.snd)))

/-- One dispatched event (src/bot.py `main`, lines 259-276): `/start` enters
the conversation from any state (entry point plus fallback, `allow_reentry`);
plain text reaches `ask_name` only in `ASK_NAME`; button taps reach
`handle_answer` only in `ASK_QUESTIONS`; `/cancel` is a fallback, so it only
fires inside an active conversation; `/reset` and `/leaderboard` are global
handlers the conversation never swallows. -/
def step (st : BotState) (e : Event) : BotState × List Msg :=
  match e with
  | Event.startCmd u =>
    let r := startHandler u st.players
    (⟨r.1, setA u r.2.2 st.conv⟩, r.2.1)
  | Event.textMsg u c =>
    match getConv u st.conv with
    | ConvState.askName =>
      let r := askNameHandler u c st.players
      (⟨r.1, setA u r.2.2 st.conv⟩, r.2.1)
    | _ => (st, [])
  | Event.buttonTap u d =>
    match getConv u st.conv with
    | ConvState.askQuestions =>
      let r := handleAnswer u d st.players
      (⟨r.1, setA u r.2.2 st.conv⟩, r.2.1)
    | _ => (st, [])
  | Event.cancelCmd u =>
    match getConv u st.conv with
    | ConvState.idle => (st, [])
    | _ => (⟨st.players, setA u ConvState.idle st.conv⟩, [Msg.cancelled])
  | Event.resetCmd u =>
    (⟨removeA u st.players, st.conv⟩, [Msg.resetDone])
  | Event.lbCmd _ =>
    (st, [leaderboardCmd st.players])

/-- The state at process start with no durable image: empty mapping, no
conversations. -/
def initState : BotState := ⟨[], []⟩

/-- Run a sequence of events from a state, discarding outputs. -/
def runEvents (st : BotState) (es : List Event) : BotState :=
  es.foldl (fun s e => (step s e).1) st

/-- States reachable from a fresh start by dispatching events. -/
inductive Reachable : BotState → Prop
  | init : Reachable initState
  | next {s : BotState} (e : Event) : Reachable s → Reachable (step s e).1

/-- The normalized choice (src/bot.py lines 146-149): the parsed payload, or
`-1` when `int(query.data)` raises `ValueError`. -/
def chosenOf (d : String) : Int :=
  (parseInt d).getD (-1)

/-- `correct_index` of question `i` (src/bot.py line 151). -/
def correctIndexAt (i : Nat) : Nat :=
  (questions.getD i ("", [], 0)).2.2

/-- JSON values, the image of Python `json.dump`/`json.load`.  The textual
encoding itself belongs to the Python standard library, outside this
repository, so persistence is modelled at the JSON-value level. -/
inductive Json
  | null
  | bool (b : Bool)
  | num (n : Int)
  | str (s : String)
  | arr (elems : List Json)
  | obj (fields : List (String × Json))

/-- The JSON object `json.dump` writes for one player record
(src/bot.py line 57, value shape from line 28). -/
def playerToJson (p : PlayerRec) : Json :=
  Json.obj [("name", Json.str p.name), ("score", Json.num (Int.ofNat p.score)),
            ("q_index", Json.num (Int.ofNat p.q_index))]

/-- The JSON object `json.dump(players, f)` writes (src/bot.py line 57). -/
def playersToJson (m : Players) : Json :=
  Json.obj (m.map (fun e => (e.1, playerToJson e.2)))

/-- Modelled from the spec: reading one session record back out of the JSON
image (the decoding side of the Python `json` library plus the record shape of
src/bot.py line 28; the parsing code itself is the standard library, not part
of this repository). -/
def jsonToPlayer : Json → Option PlayerRec
  | Json.obj [("name", Json.str n), ("score", Json.num s), ("q_index", Json.num q)] =>
    if s < 0 ∨ q < 0 then none else some ⟨n, s.toNat, q.toNat⟩
  | _ => none

/-- Modelled from the spec: reading the fields of the top-level JSON object
back into mapping entries, in order. -/
def decodeFields : List (String × Json) → Option Players
  | [] => some []
  | e :: t =>
    match jsonToPlayer e.2, decodeFields t with
    | some p, some m => some ((e.1, p) :: m)
    | _, _ => none

/-- Modelled from the spec: reading the whole mapping back out of the JSON
image (`json.load`, src/bot.py line 46). -/
def jsonToPlayers : Json → Option Players
  | Json.obj fields => decodeFields fields
  | _ => none

/-- The durable image `players.json` as the process sees it at startup:
missing (`os.path.exists` false), unreadable/corrupt (`json.load` raises), or
a stored JSON value. -/
inductive Disk
  | absent
  | corrupt
  | stored (j : Json)

/-- `load_state` (src/bot.py lines 41-51): an absent file or a failed read
yields the empty mapping (the failure is logged, not raised); otherwise the
stored image is decoded. -/
def load_state : Disk → Players
  | Disk.absent => []
  | Disk.corrupt => []
  | Disk.stored j => (jsonToPlayers j).getD []

/-- `save_state` (src/bot.py lines 54-59): on success the durable image
becomes the encoded mapping; a write failure is logged and swallowed, leaving
the previous image (and, structurally, the in-memory mapping) untouched. -/
def save_state (m : Players) (writeOk : Bool) (d : Disk) : Disk :=
  if writeOk then Disk.stored (playersToJson m) else d

/-- The per-session invariant of §8 of the spec: `score ≤ qIndex ≤ len(quiz)`
(so in particular both are at most `len(quiz)`; both are `Nat`, hence ≥ 0). -/
def SessionOK (p : PlayerRec) : Prop :=
  p.score ≤ p.q_index ∧ p.q_index ≤ questions.length

/-- The inductive invariant of the step machine: every stored session is
well-formed, and a user sitting at the naming prompt always has a fresh
cursor (`ask_name` is only reachable right after `start`). -/
def StoreInv (st : BotState) : Prop :=
  (∀ u p, List.lookup u st.players = some p → SessionOK p)
  ∧ (∀ u p, getConv u st.conv = ConvState.askName →
      List.lookup u st.players = some p → p.q_index = 0)

/-! ## Association-list lemmas -/

theorem lookup_setA_self {β : Type} (k : String) (v : β) (l : List (String × β)) :
    List.lookup k (setA k v l) = some v := by
  induction l with
  | nil => simp [setA, List.lookup]
  | cons e t ih =>
    by_cases h : e.1 = k
    · simp [setA, h, List.lookup]
    · have hb : (k == e.1) = false := beq_eq_false_iff_ne.mpr (Ne.symm h)
      simp [setA, h, List.lookup, hb, ih]

theorem lookup_setA_ne {β : Type} {k w : String} (h : w ≠ k) (v : β)
    (l : List (String × β)) : List.lookup w (setA k v l) = List.lookup w l := by
  have hb : (w == k) = false := beq_eq_false_iff_ne.mpr h
  induction l with
  | nil => simp [setA, List.lookup, hb]
  | cons e t ih =>
    by_cases he : e.1 = k
    · subst he
      simp [setA, List.lookup, hb]
    · by_cases hw : w = e.1
      · simp [setA, he, List.lookup, hw]
      · have hb2 : (w == e.1) = false := beq_eq_false_iff_ne.mpr hw
        simp [setA, he, List.lookup, hb2, ih]

theorem lookup_removeA_self {β : Type} (k : String) (l : List (String × β)) :
    List.lookup k (removeA k l) = none := by
  induction l with
  | nil => simp [removeA, List.lookup]
  | cons e t ih =>
    by_cases h : e.1 = k
    · simp [removeA, h, List.filter] at ih ⊢
      exact ih
    · have hb : (e.1 == k) = false := beq_eq_false_iff_ne.mpr h
      have hb2 : (k == e.1) = false := beq_eq_false_iff_ne.mpr (Ne.symm h)
      simp [removeA, List.filter, hb, List.lookup, hb2] at ih ⊢
      exact ih

theorem lookup_removeA_ne {β : Type} {k w : String} (h : w ≠ k)
    (l : List (String × β)) : List.lookup w (removeA k l) = List.lookup w l := by
  induction l with
  | nil => simp [removeA, List.lookup]
  | cons e t ih =>
    by_cases he : e.1 = k
    · have hb : (e.1 == k) = true := beq_iff_eq.mpr he
      have hw : (w == e.1) = false := beq_eq_false_iff_ne.mpr (he ▸ h)
      simp [removeA, List.filter, hb, List.lookup, hw] at ih ⊢
      exact ih
    · have hb : (e.1 == k) = false := beq_eq_false_iff_ne.mpr he
      simp [removeA, List.filter, hb, List.lookup] at ih ⊢
      by_cases hw : w = e.1
      · simp [hw]
      · have hw2 : (w == e.1) = false := beq_eq_false_iff_ne.mpr hw
        simp [hw2]
        exact ih

theorem getConv_setA_self (u : String) (v : ConvState)
    (c : List (String × ConvState)) : getConv u (setA u v c) = v := by
  simp [getConv, lookup_setA_self]

theorem getConv_setA_ne {u w : String} (h : w ≠ u) (v : ConvState)
    (c : List (String × ConvState)) : getConv w (setA u v c) = getConv w c := by
  simp [getConv, lookup_setA_ne h]

/-! ## Handler lemmas -/

theorem askQuestion_players_of_isSome (u : String) (pl : Players)
    (h : (List.lookup u pl).isSome = true) : (askQuestion u pl).1 = pl := by
  unfold askQuestion
  simp only [h, if_true]
  split <;> rfl

theorem handleAnswer_result (u d : String) (pl : Players) (p : PlayerRec)
    (hp : List.lookup u pl = some p) (hq : p.q_index < questions.length) :
    List.lookup u (handleAnswer u d pl).1
      = some ⟨p.name,
          if chosenOf d = Int.ofNat (correctIndexAt p.q_index) then p.score + 1 else p.score,
          p.q_index + 1⟩ := by
  have hge : ¬ p.q_index ≥ questions.length := by omega
  unfold handleAnswer
  simp only [hp, Option.isSome_some, if_true, Option.getD_some]
  rw [if_neg hge]
  rw [askQuestion_players_of_isSome u _ (by simp [lookup_setA_self])]
  rw [lookup_setA_self]
  rfl

theorem tap_result (st : BotState) (u d : String) (p : PlayerRec)
    (hc : getConv u st.conv = ConvState.askQuestions)
    (hp : List.lookup u st.players = some p)
    (hq : p.q_index < questions.length) :
    List.lookup u ((step st (Event.buttonTap u d)).1.players)
      = some ⟨p.name,
          if chosenOf d = Int.ofNat (correctIndexAt p.q_index) then p.score + 1 else p.score,
          p.q_index + 1⟩ := by
  unfold step
  simp only [hc]
  exact handleAnswer_result u d st.players p hp hq

/-- Every question of the bank has its `correct_index` inside `[0, n-1]` for
its `n` options. -/
theorem bank_correct_lt_options :
    ∀ i, i < questions.length →
      correctIndexAt i < (questions.getD i ("", [], 0)).2.1.length := by
  decide

/-- C9: handling a `begin` (`/start`) command replaces the user's session with
a fresh one (`score = 0`, `q_index = 0`, empty name), whatever the prior state
was — no progress carries over. -/
theorem start_discards_progress (st : BotState) (u : String) :
    List.lookup u ((step st (Event.startCmd u)).1.players) = some ⟨"", 0, 0⟩ := by
  unfold step startHandler
  exact lookup_setA_self u _ st.players

/-- C3: a ButtonTap handled for a session whose cursor has reached the end of
the quiz (`q_index = len(questions)`) leaves the whole session store
unchanged and reports only the already-finished message. -/
theorem finished_tap_frame (st : BotState) (u d : String) (p : PlayerRec)
    (hc : getConv u st.conv = ConvState.askQuestions)
    (hp : List.lookup u st.players = some p)
    (hq : p.q_index = questions.length) :
    (step st (Event.buttonTap u d)).1.players = st.players
    ∧ (step st (Event.buttonTap u d)).2 = [Msg.alreadyFinished] := by
  have hge : p.q_index ≥ questions.length := by omega
  unfold step
  simp only [hc]
  unfold handleAnswer
  simp only [hp, Option.isSome_some, if_true, Option.getD_some]
  rw [if_pos hge]
  exact ⟨rfl, rfl⟩

theorem finished_tap_frame_witness :
    (step ⟨[("u", ⟨"Bob", 3, 5⟩)], [("u", ConvState.askQuestions)]⟩
        (Event.buttonTap "u" "0")).1.players = [("u", ⟨"Bob", 3, 5⟩)]
    ∧ (step ⟨[("u", ⟨"Bob", 3, 5⟩)], [("u", ConvState.askQuestions)]⟩
        (Event.buttonTap "u" "0")).2 = [Msg.alreadyFinished] :=
  finished_tap_frame ⟨[("u", ⟨"Bob", 3, 5⟩)], [("u", ConvState.askQuestions)]⟩
    "u" "0" ⟨"Bob", 3, 5⟩ (by decide) (by decide) (by decide)

/-- C2: on a ButtonTap with the cursor inside the quiz, the score goes up by
exactly 1 when the normalized choice equals the question's `correct_index`
and stays put otherwise, and the cursor always advances by exactly 1; and the
concrete five-question round in which Ada answers questions 0, 2, 4 correctly
and 1, 3 incorrectly ends with `score = 3` and `q_index = 5`. -/
theorem tap_scoring_and_ada_round :
    (∀ (st : BotState) (u d : String) (p : PlayerRec),
      getConv u st.conv = ConvState.askQuestions →
      List.lookup u st.players = some p →
      p.q_index < questions.length →
      List.lookup u ((step st (Event.buttonTap u d)).1.players)
        = some ⟨p.name,
            if chosenOf d = Int.ofNat (correctIndexAt p.q_index) then p.score + 1
            else p.score,
            p.q_index + 1⟩)
    ∧ List.lookup "ada"
        (runEvents initState
          [Event.startCmd "ada", Event.textMsg "ada" "Ada",
           Event.buttonTap "ada" "2", Event.buttonTap "ada" "0",
           Event.buttonTap "ada" "1", Event.buttonTap "ada" "0",
           Event.buttonTap "ada" "1"]).players
        = some ⟨"Ada", 3, 5⟩ :=
  ⟨fun st u d p hc hp hq => tap_result st u d p hc hp hq, by decide⟩

theorem tap_scoring_witness :
    List.lookup "u"
      ((step ⟨[("u", ⟨"Bob", 1, 2⟩)], [("u", ConvState.askQuestions)]⟩
          (Event.buttonTap "u" "1")).1.players) = some ⟨"Bob", 2, 3⟩ :=
  (tap_scoring_and_ada_round.1 ⟨[("u", ⟨"Bob", 1, 2⟩)], [("u", ConvState.askQuestions)]⟩
      "u" "1" ⟨"Bob", 1, 2⟩ (by decide) (by decide) (by decide)).trans (by decide)

/-- C4: a ButtonTap whose payload is unparsable as an integer, or parses to an
integer outside `[0, n-1]` for the current question's `n` options, is scored
as incorrect (the normalized choice can never equal `correct_index`): the
score is unchanged and the cursor still advances by 1 — the tap is never
rejected. -/
theorem invalid_choice_advances (st : BotState) (u d : String) (p : PlayerRec)
    (hc : getConv u st.conv = ConvState.askQuestions)
    (hp : List.lookup u st.players = some p)
    (hq : p.q_index < questions.length)
    (hbad : parseInt d = none
      ∨ ∃ c, parseInt d = some c
          ∧ (c < 0 ∨ Int.ofNat (questions.getD p.q_index ("", [], 0)).2.1.length ≤ c)) :
    List.lookup u ((step st (Event.buttonTap u d)).1.players)
      = some ⟨p.name, p.score, p.q_index + 1⟩ := by
  have hlt := bank_correct_lt_options p.q_index hq
  have hmiss : ¬ chosenOf d = Int.ofNat (correctIndexAt p.q_index) := by
    rcases hbad with hnone | ⟨c, hc1, hc2⟩
    · intro hcontra
      rw [chosenOf, hnone] at hcontra
      simp at hcontra
    · intro hcontra
      rw [chosenOf, hc1] at hcontra
      simp only [Option.getD_some] at hcontra
      rcases hc2 with hneg | hbig
      · rw [hcontra] at hneg
        exact absurd hneg (by simp)
      · rw [hcontra] at hbig
        have := Int.ofNat_le.mp hbig
        omega
  have h := tap_result st u d p hc hp hq
  rw [if_neg hmiss] at h
  exact h

theorem invalid_choice_advances_witness :
    List.lookup "u"
      ((step ⟨[("u", ⟨"Eve", 0, 0⟩)], [("u", ConvState.askQuestions)]⟩
          (Event.buttonTap "u" "9")).1.players) = some ⟨"Eve", 0, 1⟩ :=
  invalid_choice_advances ⟨[("u", ⟨"Eve", 0, 0⟩)], [("u", ConvState.askQuestions)]⟩
    "u" "9" ⟨"Eve", 0, 0⟩ (by decide) (by decide) (by decide)
    (Or.inr ⟨9, by decide, Or.inr (by decide)⟩)

/-- C1 (amended): a ButtonTap dispatched for a user with NO session in the
store does not produce a session-not-found message — `handle_answer`
fabricates a fresh session on the spot and scores the tap against question 0:
afterwards the user has a session with `q_index = 1` and `score = 1` exactly
when the choice hit question 0's `correct_index`.  (A tap arriving outside an
active conversation is ignored entirely by the dispatcher.) -/
theorem tap_no_session_bootstraps (st : BotState) (u d : String)
    (hc : getConv u st.conv = ConvState.askQuestions)
    (hp : List.lookup u st.players = none) :
    List.lookup u ((step st (Event.buttonTap u d)).1.players)
      = some ⟨"", if chosenOf d = Int.ofNat (correctIndexAt 0) then 1 else 0, 1⟩ := by
  unfold step
  simp only [hc]
  unfold handleAnswer
  simp only [hp, Option.isSome_none, Bool.false_eq_true, if_false, lookup_setA_self,
    Option.getD_some]
  rw [if_neg (by decide : ¬ (PlayerRec.mk "" 0 0).q_index ≥ questions.length)]
  rw [askQuestion_players_of_isSome u _ (by simp [lookup_setA_self])]
  rw [lookup_setA_self]
  rfl

theorem tap_no_session_bootstraps_witness :
    List.lookup "u"
      ((step ⟨[], [("u", ConvState.askQuestions)]⟩ (Event.buttonTap "u" "2")).1.players)
      = some ⟨"", 1, 1⟩ :=
  (tap_no_session_bootstraps ⟨[], [("u", ConvState.askQuestions)]⟩ "u" "2"
      (by decide) (by decide)).trans (by decide)

/-- C1 (counterexample): after `/start`, naming, and `/reset`, the user has no
session but the conversation is still in `ASK_QUESTIONS`; a ButtonTap then
CREATES a session and even awards a point for it, and the first reply is the
correctness verdict, not a session-not-found message — so the handler neither
leaves the store unchanged nor reports "session not found, use begin". -/
theorem tap_no_session_counterexample :
    List.lookup "u"
        (runEvents initState
          [Event.startCmd "u", Event.textMsg "u" "Bob", Event.resetCmd "u"]).players
      = none
    ∧ List.lookup "u"
        ((step (runEvents initState
            [Event.startCmd "u", Event.textMsg "u" "Bob", Event.resetCmd "u"])
          (Event.buttonTap "u" "2")).1.players)
      = some ⟨"", 1, 1⟩
    ∧ ((step (runEvents initState
            [Event.startCmd "u", Event.textMsg "u" "Bob", Event.resetCmd "u"])
          (Event.buttonTap "u" "2")).2).head?
      = some Msg.correctMsg := by
  decide

/-- The first index of a list element is at most any index where it occurs. -/
theorem indexOf_get_le (l : List PlayerRec) :
    ∀ (i : Nat) (h : i < l.length), l.indexOf (l.get ⟨i, h⟩) ≤ i := by
  induction l with
  | nil => intro i h; exact absurd h (by simp)
  | cons a t ih =>
    intro i h
    cases i with
    | zero => simp
    | succ n =>
      have hg : (a :: t).get ⟨n + 1, h⟩ = t.get ⟨n, by simpa using h⟩ := rfl
      rw [hg]
      by_cases hx : a = t.get ⟨n, by simpa using h⟩
      · rw [List.indexOf_cons_eq _ hx]
        omega
      · rw [List.indexOf_cons_ne _ hx]
        exact Nat.succ_le_succ (ih n _)

/-- C10: the finishing user's rank is one plus the index of the FIRST session
in the sorted snapshot field-equal to theirs; so when the same record also
occurs at an earlier position `i`, the rank reported for the session at a
later position `j` is at most `i + 1` and in particular is strictly below
that session's own 1-indexed position `j + 1`. -/
theorem duplicate_rank_first_equal :
    ∀ (snapshot : List PlayerRec) (i j : Nat) (hij : i < j)
      (hj : j < (sortByScoreDesc snapshot).length),
      (sortByScoreDesc snapshot).get ⟨i, Nat.lt_trans hij hj⟩
          = (sortByScoreDesc snapshot).get ⟨j, hj⟩ →
      computedRank (sortByScoreDesc snapshot)
          ((sortByScoreDesc snapshot).get ⟨j, hj⟩) ≤ i + 1
      ∧ computedRank (sortByScoreDesc snapshot)
          ((sortByScoreDesc snapshot).get ⟨j, hj⟩) < j + 1 := by
  intro snap i j hij hj heq
  have hcon : (sortByScoreDesc snap).contains ((sortByScoreDesc snap).get ⟨j, hj⟩) = true := by
    simp
  have hidx : (sortByScoreDesc snap).indexOf ((sortByScoreDesc snap).get ⟨j, hj⟩) ≤ i := by
    rw [← heq]
    exact indexOf_get_le (sortByScoreDesc snap) i _
  unfold computedRank
  rw [if_pos hcon]
  omega

theorem duplicate_rank_witness :
    computedRank (sortByScoreDesc [⟨"x", 1, 1⟩, ⟨"x", 1, 1⟩])
        ((sortByScoreDesc [⟨"x", 1, 1⟩, ⟨"x", 1, 1⟩]).get ⟨1, by decide⟩) ≤ 1
    ∧ computedRank (sortByScoreDesc [⟨"x", 1, 1⟩, ⟨"x", 1, 1⟩])
        ((sortByScoreDesc [⟨"x", 1, 1⟩, ⟨"x", 1, 1⟩]).get ⟨1, by decide⟩) < 2 :=
  duplicate_rank_first_equal [⟨"x", 1, 1⟩, ⟨"x", 1, 1⟩] 0 1 (by decide) (by decide)
    (by decide)


/-! ## Stable descending sort: the leaderboard projection -/

theorem insertDesc_split (p : PlayerRec) (l : List PlayerRec) :
    insertDesc p l
      = l.takeWhile (fun q => decide (p.score ≤ q.score))
        ++ p :: l.dropWhile (fun q => decide (p.score ≤ q.score)) := by
  induction l with
  | nil => rfl
  | cons q t ih =>
    by_cases h : p.score ≤ q.score
    · simp only [insertDesc, if_pos h, List.takeWhile_cons, List.dropWhile_cons,
        decide_eq_true h, ih]
      rfl
    · simp only [insertDesc, if_neg h, List.takeWhile_cons, List.dropWhile_cons,
        decide_eq_false h]
      rfl

theorem mem_insertDesc {x p : PlayerRec} {l : List PlayerRec} :
    x ∈ insertDesc p l ↔ x = p ∨ x ∈ l := by
  rw [insertDesc_split]
  constructor
  · intro hx
    rcases List.mem_append.mp hx with hA | hB
    · exact Or.inr ((List.takeWhile_sublist _).subset hA)
    · rcases List.mem_cons.mp hB with rfl | hB2
      · exact Or.inl rfl
      · exact Or.inr ((List.dropWhile_sublist _).subset hB2)
  · intro hx
    rcases hx with rfl | hxl
    · exact List.mem_append.mpr (Or.inr (List.mem_cons_self _ _))
    · have hx2 : x ∈ l.takeWhile (fun q => decide (p.score ≤ q.score))
          ++ l.dropWhile (fun q => decide (p.score ≤ q.score)) := by
        rw [List.takeWhile_append_dropWhile]
        exact hxl
      rcases List.mem_append.mp hx2 with hA | hB
      · exact List.mem_append.mpr (Or.inl hA)
      · exact List.mem_append.mpr (Or.inr (List.mem_cons_of_mem _ hB))

theorem pairwise_insertDesc {p : PlayerRec} {l : List PlayerRec}
    (h : l.Pairwise (fun a b => b.score ≤ a.score)) :
    (insertDesc p l).Pairwise (fun a b => b.score ≤ a.score) := by
  induction l with
  | nil => simp [insertDesc]
  | cons q t ih =>
    rcases List.pairwise_cons.mp h with ⟨hq, ht⟩
    by_cases hle : p.score ≤ q.score
    · simp only [insertDesc, if_pos hle]
      refine List.pairwise_cons.mpr ⟨?_, ih ht⟩
      intro x hx
      rcases mem_insertDesc.mp hx with rfl | hxt
      · exact hle
      · exact hq x hxt
    · simp only [insertDesc, if_neg hle]
      refine List.pairwise_cons.mpr ⟨?_, h⟩
      intro x hx
      rcases List.mem_cons.mp hx with rfl | hxt
      · omega
      · have := hq x hxt
        omega

theorem dropWhile_score_lt (p : PlayerRec) (l : List PlayerRec)
    (hl : l.Pairwise (fun a b => b.score ≤ a.score)) :
    ∀ x ∈ l.dropWhile (fun q => decide (p.score ≤ q.score)), x.score < p.score := by
  intro x hx
  set B := l.dropWhile (fun q => decide (p.score ≤ q.score)) with hB
  have hBne : B ≠ [] := by
    intro hnil
    rw [hnil] at hx
    exact absurd hx (List.not_mem_nil x)
  have hhead : decide (p.score ≤ (B.head hBne).score) = false :=
    List.head_dropWhile_not _ l hBne
  have hhead2 : (B.head hBne).score < p.score := by
    have : ¬ p.score ≤ (B.head hBne).score := by simpa using hhead
    omega
  have hpB : B.Pairwise (fun a b => b.score ≤ a.score) :=
    hl.sublist (List.dropWhile_sublist _)
  have hcons : B.head hBne :: B.tail = B := List.head_cons_tail B hBne
  rw [← hcons] at hx hpB
  rcases List.mem_cons.mp hx with rfl | hxt
  · exact hhead2
  · have := (List.pairwise_cons.mp hpB).1 x hxt
    omega

theorem filter_insertDesc (p : PlayerRec) (l : List PlayerRec) (s : Nat)
    (hl : l.Pairwise (fun a b => b.score ≤ a.score)) :
    (insertDesc p l).filter (fun x => x.score == s)
      = if p.score = s
        then l.filter (fun x => x.score == s) ++ [p]
        else l.filter (fun x => x.score == s) := by
  have hsplit : l.filter (fun x => x.score == s)
      = (l.takeWhile (fun q => decide (p.score ≤ q.score))).filter (fun x => x.score == s)
        ++ (l.dropWhile (fun q => decide (p.score ≤ q.score))).filter (fun x => x.score == s) := by
    rw [← List.filter_append, List.takeWhile_append_dropWhile]
  rw [insertDesc_split, List.filter_append, List.filter_cons]
  by_cases hp : p.score = s
  · have hpb : (p.score == s) = true := beq_iff_eq.mpr hp
    have hBnil : (l.dropWhile (fun q => decide (p.score ≤ q.score))).filter
        (fun x => x.score == s) = [] := by
      apply List.filter_eq_nil_iff.mpr
      intro x hx
      have hxlt := dropWhile_score_lt p l hl x hx
      simp only [beq_iff_eq]
      omega
    rw [hpb, if_pos hp, hsplit, hBnil]
    simp
  · have hpb : (p.score == s) = false := beq_eq_false_iff_ne.mpr hp
    rw [hpb, if_neg hp, hsplit]
    simp

theorem foldl_insertDesc_pairwise : ∀ (l acc : List PlayerRec),
    acc.Pairwise (fun a b => b.score ≤ a.score) →
    (List.foldl (fun a p => insertDesc p a) acc l).Pairwise
      (fun a b => b.score ≤ a.score) := by
  intro l
  induction l with
  | nil => intro acc h; simpa using h
  | cons x xs ih =>
    intro acc h
    rw [List.foldl_cons]
    exact ih _ (pairwise_insertDesc h)

theorem foldl_insertDesc_filter : ∀ (l acc : List PlayerRec) (s : Nat),
    acc.Pairwise (fun a b => b.score ≤ a.score) →
    (List.foldl (fun a p => insertDesc p a) acc l).filter (fun x => x.score == s)
      = acc.filter (fun x => x.score == s) ++ l.filter (fun x => x.score == s) := by
  intro l
  induction l with
  | nil => intro acc s h; simp
  | cons x xs ih =>
    intro acc s h
    rw [List.foldl_cons, ih _ s (pairwise_insertDesc h), filter_insertDesc x acc s h,
      List.filter_cons]
    by_cases hx : x.score = s
    · have hxb : (x.score == s) = true := beq_iff_eq.mpr hx
      rw [if_pos hx, hxb]
      simp
    · have hxb : (x.score == s) = false := beq_eq_false_iff_ne.mpr hx
      rw [if_neg hx, hxb]
      simp

theorem length_insertDesc (p : PlayerRec) (l : List PlayerRec) :
    (insertDesc p l).length = l.length + 1 := by
  rw [insertDesc_split]
  have hlen := congrArg List.length
    (List.takeWhile_append_dropWhile (fun q => decide (p.score ≤ q.score)) l)
  simp only [List.length_append] at hlen
  simp [List.length_append]
  omega

theorem foldl_insertDesc_length : ∀ (l acc : List PlayerRec),
    (List.foldl (fun a p => insertDesc p a) acc l).length = acc.length + l.length := by
  intro l
  induction l with
  | nil => intro acc; simp
  | cons x xs ih =>
    intro acc
    rw [List.foldl_cons, ih, length_insertDesc]
    simp
    omega

theorem length_sortByScoreDesc (l : List PlayerRec) :
    (sortByScoreDesc l).length = l.length := by
  unfold sortByScoreDesc
  rw [foldl_insertDesc_length]
  simp

/-- C6: the leaderboard projection stable-sorts the snapshot descending by
score — the output is pairwise descending, and for every score value the
sub-sequence of records carrying that score is exactly the snapshot's, in
snapshot order (so equal scores are never reordered) — and the rendered rows
carry 1-indexed consecutive ranks by sorted position, truncated to the top
10. -/
theorem leaderboard_stable_sorted (l : List PlayerRec) :
    (sortByScoreDesc l).Pairwise (fun a b => b.score ≤ a.score)
    ∧ (∀ s : Nat, (sortByScoreDesc l).filter (fun x => x.score == s)
        = l.filter (fun x => x.score == s))
    ∧ (sortByScoreDesc l).length = l.length
    ∧ (topRows (sortByScoreDesc l)).map
        (fun r => match r with | LBLine.row k _ _ => k | _ => 0)
        = List.range' 1 (min 10 l.length)
    ∧ (topRows (sortByScoreDesc l)).map
        (fun r => match r with | LBLine.row _ n sc => (n, sc) | _ => ("", 0))
        = ((sortByScoreDesc l).take 10).map (fun p => (p.name, p.score)) := by
  refine ⟨foldl_insertDesc_pairwise l [] (by simp), fun s => ?_, length_sortByScoreDesc l,
    ?_, ?_⟩
  · unfold sortByScoreDesc
    rw [foldl_insertDesc_filter l [] s (by simp)]
    simp
  · unfold topRows
    rw [List.map_map]
    have hcomp : ((fun r => match r with | LBLine.row k _ _ => k | _ => 0)
        ∘ (fun e : Nat × PlayerRec => LBLine.row (e.1 + 1) e.2.name e.2.score))
        = (fun i => i + 1) ∘ Prod.fst := rfl
    rw [hcomp, ← List.map_map, List.enum_map_fst, List.length_take,
      length_sortByScoreDesc, List.range'_eq_map_range]
    exact List.map_congr_left (fun i _ => Nat.add_comm i 1)
  · unfold topRows
    rw [List.map_map]
    have hcomp : ((fun r => match r with | LBLine.row _ n sc => (n, sc) | _ => ("", 0))
        ∘ (fun e : Nat × PlayerRec => LBLine.row (e.1 + 1) e.2.name e.2.score))
        = (fun p : PlayerRec => (p.name, p.score)) ∘ Prod.snd := rfl
    rw [hcomp, ← List.map_map, List.enum_map_snd]

/-- C7 (amended): the ellipsis-plus-own-row block is appended to the finish
leaderboard exactly when the COMPUTED rank — one plus the index of the first
session field-equal to the user's in the sorted snapshot — exceeds 10; when
it is, the output is the header, the top-10 rows, an ellipsis, and the user's
(computedRank, name, score) row. -/
theorem own_rank_row_appended (snapshot : List PlayerRec) (p : PlayerRec)
    (h : computedRank (sortByScoreDesc snapshot) p > 10) :
    finishLines p snapshot
      = (LBLine.header :: topRows (sortByScoreDesc snapshot))
        ++ [LBLine.ellipsis,
            LBLine.row (computedRank (sortByScoreDesc snapshot) p) p.name p.score] := by
  simp only [finishLines]
  rw [if_pos h]

theorem own_rank_row_witness :
    LBLine.ellipsis ∈ finishLines ⟨"Kay", 2, 5⟩
      [⟨"A", 12, 5⟩, ⟨"B", 11, 5⟩, ⟨"C", 10, 5⟩, ⟨"D", 9, 5⟩, ⟨"E", 8, 5⟩,
       ⟨"F", 7, 5⟩, ⟨"G", 6, 5⟩, ⟨"H", 5, 5⟩, ⟨"I", 4, 5⟩, ⟨"J", 3, 5⟩,
       ⟨"Kay", 2, 5⟩, ⟨"L", 1, 5⟩]
    ∧ LBLine.row 11 "Kay" 2 ∈ finishLines ⟨"Kay", 2, 5⟩
      [⟨"A", 12, 5⟩, ⟨"B", 11, 5⟩, ⟨"C", 10, 5⟩, ⟨"D", 9, 5⟩, ⟨"E", 8, 5⟩,
       ⟨"F", 7, 5⟩, ⟨"G", 6, 5⟩, ⟨"H", 5, 5⟩, ⟨"I", 4, 5⟩, ⟨"J", 3, 5⟩,
       ⟨"Kay", 2, 5⟩, ⟨"L", 1, 5⟩]
    ∧ (topRows (sortByScoreDesc
        [⟨"A", 12, 5⟩, ⟨"B", 11, 5⟩, ⟨"C", 10, 5⟩, ⟨"D", 9, 5⟩, ⟨"E", 8, 5⟩,
         ⟨"F", 7, 5⟩, ⟨"G", 6, 5⟩, ⟨"H", 5, 5⟩, ⟨"I", 4, 5⟩, ⟨"J", 3, 5⟩,
         ⟨"Kay", 2, 5⟩, ⟨"L", 1, 5⟩])).length = 10 := by
  rw [own_rank_row_appended
    [⟨"A", 12, 5⟩, ⟨"B", 11, 5⟩, ⟨"C", 10, 5⟩, ⟨"D", 9, 5⟩, ⟨"E", 8, 5⟩,
     ⟨"F", 7, 5⟩, ⟨"G", 6, 5⟩, ⟨"H", 5, 5⟩, ⟨"I", 4, 5⟩, ⟨"J", 3, 5⟩,
     ⟨"Kay", 2, 5⟩, ⟨"L", 1, 5⟩] ⟨"Kay", 2, 5⟩ (by decide)]
  decide

/-- C7 (counterexample): in this 12-session snapshot the querying user's
session (the last snapshot entry, field-equal to the first one) occupies
sorted position 11 — outside the top 10 — yet the finish output is just the
header and the top-10 rows: no ellipsis and no own-rank row, because
`leaderboard.index` finds the field-equal record at position 1. -/
theorem own_rank_row_counterexample :
    (sortByScoreDesc
      [⟨"A", 5, 5⟩, ⟨"B", 5, 5⟩, ⟨"C", 5, 5⟩, ⟨"D", 5, 5⟩, ⟨"E", 5, 5⟩,
       ⟨"F", 5, 5⟩, ⟨"G", 5, 5⟩, ⟨"H", 5, 5⟩, ⟨"I", 5, 5⟩, ⟨"J", 5, 5⟩,
       ⟨"Low", 1, 5⟩, ⟨"A", 5, 5⟩]).get ⟨10, by decide⟩ = ⟨"A", 5, 5⟩
    ∧ finishLines ⟨"A", 5, 5⟩
      [⟨"A", 5, 5⟩, ⟨"B", 5, 5⟩, ⟨"C", 5, 5⟩, ⟨"D", 5, 5⟩, ⟨"E", 5, 5⟩,
       ⟨"F", 5, 5⟩, ⟨"G", 5, 5⟩, ⟨"H", 5, 5⟩, ⟨"I", 5, 5⟩, ⟨"J", 5, 5⟩,
       ⟨"Low", 1, 5⟩, ⟨"A", 5, 5⟩]
      = LBLine.header :: topRows (sortByScoreDesc
        [⟨"A", 5, 5⟩, ⟨"B", 5, 5⟩, ⟨"C", 5, 5⟩, ⟨"D", 5, 5⟩, ⟨"E", 5, 5⟩,
         ⟨"F", 5, 5⟩, ⟨"G", 5, 5⟩, ⟨"H", 5, 5⟩, ⟨"I", 5, 5⟩, ⟨"J", 5, 5⟩,
         ⟨"Low", 1, 5⟩, ⟨"A", 5, 5⟩])
    ∧ LBLine.ellipsis ∉ finishLines ⟨"A", 5, 5⟩
      [⟨"A", 5, 5⟩, ⟨"B", 5, 5⟩, ⟨"C", 5, 5⟩, ⟨"D", 5, 5⟩, ⟨"E", 5, 5⟩,
       ⟨"F", 5, 5⟩, ⟨"G", 5, 5⟩, ⟨"H", 5, 5⟩, ⟨"I", 5, 5⟩, ⟨"J", 5, 5⟩,
       ⟨"Low", 1, 5⟩, ⟨"A", 5, 5⟩] := by
  decide

/-! ## Persistence round-trip -/

theorem jsonToPlayer_playerToJson (p : PlayerRec) :
    jsonToPlayer (playerToJson p) = some p := by
  unfold playerToJson jsonToPlayer
  simp

theorem decodeFields_map (m : Players) :
    decodeFields (m.map (fun e => (e.1, playerToJson e.2))) = some m := by
  induction m with
  | nil => rfl
  | cons e t ih =>
    rw [List.map_cons]
    simp only [decodeFields, ih, jsonToPlayer_playerToJson]

theorem jsonToPlayers_playersToJson (m : Players) :
    jsonToPlayers (playersToJson m) = some m :=
  decodeFields_map m

/-- C8: persisting a mapping and restoring it reproduces it field-for-field;
restoring from an absent or corrupt durable image yields the empty mapping
(without raising); and a failed durable write leaves the previous image — and
the in-memory mapping, which `save_state` never touches — unchanged. -/
theorem persistence_roundtrip :
    (∀ (m : Players) (d : Disk), load_state (save_state m true d) = m)
    ∧ load_state Disk.absent = []
    ∧ load_state Disk.corrupt = []
    ∧ (∀ (m : Players) (d : Disk), save_state m false d = d) := by
  refine ⟨fun m d => ?_, rfl, rfl, fun m d => rfl⟩
  show (jsonToPlayers (playersToJson m)).getD [] = m
  rw [jsonToPlayers_playersToJson]
  rfl

/-! ## Step-shape lemmas and the session invariant -/

theorem step_start_players (v : String) (st : BotState) :
    (step st (Event.startCmd v)).1.players = setA v ⟨"", 0, 0⟩ st.players := rfl

theorem step_start_conv (v : String) (st : BotState) :
    (step st (Event.startCmd v)).1.conv = setA v ConvState.askName st.conv := rfl

theorem step_text_other (v c : String) (st : BotState)
    (hcv : getConv v st.conv ≠ ConvState.askName) :
    (step st (Event.textMsg v c)).1 = st := by
  cases h : getConv v st.conv with
  | idle => simp only [step, h]
  | askName => exact absurd h hcv
  | askQuestions => simp only [step, h]

theorem step_text_askName (v c : String) (st : BotState)
    (hcv : getConv v st.conv = ConvState.askName) :
    (step st (Event.textMsg v c)).1
      = ⟨(askNameHandler v c st.players).1,
         setA v (askNameHandler v c st.players).2.2 st.conv⟩ := by
  simp only [step, hcv]

theorem step_tap_other (v d : String) (st : BotState)
    (hcv : getConv v st.conv ≠ ConvState.askQuestions) :
    (step st (Event.buttonTap v d)).1 = st := by
  cases h : getConv v st.conv with
  | idle => simp only [step, h]
  | askName => simp only [step, h]
  | askQuestions => exact absurd h hcv

theorem step_tap_askQ (v d : String) (st : BotState)
    (hcv : getConv v st.conv = ConvState.askQuestions) :
    (step st (Event.buttonTap v d)).1
      = ⟨(handleAnswer v d st.players).1,
         setA v (handleAnswer v d st.players).2.2 st.conv⟩ := by
  simp only [step, hcv]

theorem step_cancel_players (v : String) (st : BotState) :
    (step st (Event.cancelCmd v)).1.players = st.players := by
  cases h : getConv v st.conv <;> simp only [step, h]

theorem step_cancel_conv_ne {u v : String} (huv : u ≠ v) (st : BotState) :
    getConv u (step st (Event.cancelCmd v)).1.conv = getConv u st.conv := by
  cases h : getConv v st.conv with
  | idle => simp only [step, h]
  | askName =>
    simp only [step, h]
    exact getConv_setA_ne huv _ _
  | askQuestions =>
    simp only [step, h]
    exact getConv_setA_ne huv _ _

theorem step_cancel_conv_self (v : String) (st : BotState) :
    getConv v (step st (Event.cancelCmd v)).1.conv = ConvState.idle := by
  cases h : getConv v st.conv with
  | idle => simp only [step, h]
  | askName =>
    simp only [step, h]
    exact getConv_setA_self v _ _
  | askQuestions =>
    simp only [step, h]
    exact getConv_setA_self v _ _

theorem step_reset_shape (v : String) (st : BotState) :
    (step st (Event.resetCmd v)).1 = ⟨removeA v st.players, st.conv⟩ := rfl

theorem step_lb_shape (v : String) (st : BotState) :
    (step st (Event.lbCmd v)).1 = st := rfl

theorem askQuestion_conv_ne (u : String) (pl : Players) :
    (askQuestion u pl).2.2 ≠ ConvState.askName := by
  unfold askQuestion
  dsimp only
  split <;> split <;> simp

theorem askNameHandler_players (u c : String) (pl : Players) :
    (askNameHandler u c pl).1 = pl
    ∨ ∃ name, (askNameHandler u c pl).1 = setA u ⟨name, 0, 0⟩ pl := by
  unfold askNameHandler
  by_cases hemp : (stripChars c.toList).isEmpty = true
  · rw [if_pos hemp]
    exact Or.inl rfl
  · rw [if_neg hemp]
    refine Or.inr ⟨⟨stripChars c.toList⟩, ?_⟩
    exact askQuestion_players_of_isSome u _ (by simp [lookup_setA_self])

theorem handleAnswer_cases (u d : String) (pl : Players) :
    (∃ p : PlayerRec, List.lookup u pl = some p ∧ p.q_index ≥ questions.length ∧
      (handleAnswer u d pl).1 = pl)
    ∨ (∃ p : PlayerRec, List.lookup u pl = some p ∧ p.q_index < questions.length ∧
      (handleAnswer u d pl).1
        = setA u ⟨p.name,
            if chosenOf d = Int.ofNat (correctIndexAt p.q_index) then p.score + 1
            else p.score, p.q_index + 1⟩ pl)
    ∨ (List.lookup u pl = none ∧
      (handleAnswer u d pl).1
        = setA u ⟨"", if chosenOf d = Int.ofNat (correctIndexAt 0) then 1 else 0, 1⟩
            (setA u ⟨"", 0, 0⟩ pl)) := by
  rcases hl : List.lookup u pl with _ | p
  · refine Or.inr (Or.inr ⟨rfl, ?_⟩)
    unfold handleAnswer
    simp only [hl, Option.isSome_none, Bool.false_eq_true, if_false, lookup_setA_self,
      Option.getD_some]
    rw [if_neg (by decide : ¬ (PlayerRec.mk "" 0 0).q_index ≥ questions.length)]
    rw [askQuestion_players_of_isSome u _ (by simp [lookup_setA_self])]
    rfl
  · by_cases hq : p.q_index ≥ questions.length
    · refine Or.inl ⟨p, rfl, hq, ?_⟩
      unfold handleAnswer
      simp only [hl, Option.isSome_some, if_true, Option.getD_some]
      rw [if_pos hq]
    · refine Or.inr (Or.inl ⟨p, rfl, by omega, ?_⟩)
      unfold handleAnswer
      simp only [hl, Option.isSome_some, if_true, Option.getD_some]
      rw [if_neg hq]
      rw [askQuestion_players_of_isSome u _ (by simp [lookup_setA_self])]
      rfl

theorem handleAnswer_conv_ne (u d : String) (pl : Players) :
    (handleAnswer u d pl).2.2 ≠ ConvState.askName := by
  rcases hl : List.lookup u pl with _ | p
  · unfold handleAnswer
    simp only [hl, Option.isSome_none, Bool.false_eq_true, if_false, lookup_setA_self,
      Option.getD_some]
    rw [if_neg (by decide : ¬ (PlayerRec.mk "" 0 0).q_index ≥ questions.length)]
    exact askQuestion_conv_ne u _
  · unfold handleAnswer
    simp only [hl, Option.isSome_some, if_true, Option.getD_some]
    by_cases hq : p.q_index ≥ questions.length
    · rw [if_pos hq]
      intro hx
      cases hx
    · rw [if_neg hq]
      exact askQuestion_conv_ne u _

theorem storeInv_init : StoreInv initState := by
  refine ⟨fun u p hp => ?_, fun u p hcu hp => ?_⟩
  · simp [initState, List.lookup] at hp
  · simp [initState, List.lookup] at hp

theorem storeInv_step (st : BotState) (e : Event) (h : StoreInv st) :
    StoreInv (step st e).1 := by
  obtain ⟨h1, h2⟩ := h
  cases e with
  | startCmd v =>
    refine ⟨fun u p hp => ?_, fun u p hcu hp => ?_⟩
    · rw [step_start_players] at hp
      by_cases huv : u = v
      · subst huv
        rw [lookup_setA_self] at hp
        cases hp
        exact ⟨Nat.le_refl 0, by decide⟩
      · rw [lookup_setA_ne huv] at hp
        exact h1 u p hp
    · rw [step_start_players] at hp
      by_cases huv : u = v
      · subst huv
        rw [lookup_setA_self] at hp
        cases hp
        rfl
      · rw [lookup_setA_ne huv] at hp
        rw [step_start_conv, getConv_setA_ne huv] at hcu
        exact h2 u p hcu hp
  | textMsg v c =>
    by_cases hcv : getConv v st.conv = ConvState.askName
    · rw [step_text_askName v c st hcv]
      rcases askNameHandler_players v c st.players with hres | ⟨name, hres⟩
      · refine ⟨fun u p hp => ?_, fun u p hcu hp => ?_⟩
        · have hp2 : List.lookup u (askNameHandler v c st.players).1 = some p := hp
          rw [hres] at hp2
          exact h1 u p hp2
        · have hp2 : List.lookup u (askNameHandler v c st.players).1 = some p := hp
          rw [hres] at hp2
          by_cases huv : u = v
          · subst huv
            exact h2 u p hcv hp2
          · have hcu2 : getConv u
                (setA v (askNameHandler v c st.players).2.2 st.conv)
                = ConvState.askName := hcu
            rw [getConv_setA_ne huv] at hcu2
            exact h2 u p hcu2 hp2
      · refine ⟨fun u p hp => ?_, fun u p hcu hp => ?_⟩
        · have hp2 : List.lookup u (askNameHandler v c st.players).1 = some p := hp
          rw [hres] at hp2
          by_cases huv : u = v
          · subst huv
            rw [lookup_setA_self] at hp2
            cases hp2
            exact ⟨Nat.le_refl 0, Nat.zero_le _⟩
          · rw [lookup_setA_ne huv] at hp2
            exact h1 u p hp2
        · have hp2 : List.lookup u (askNameHandler v c st.players).1 = some p := hp
          rw [hres] at hp2
          by_cases huv : u = v
          · subst huv
            rw [lookup_setA_self] at hp2
            cases hp2
            rfl
          · rw [lookup_setA_ne huv] at hp2
            have hcu2 : getConv u
                (setA v (askNameHandler v c st.players).2.2 st.conv)
                = ConvState.askName := hcu
            rw [getConv_setA_ne huv] at hcu2
            exact h2 u p hcu2 hp2
    · rw [step_text_other v c st hcv]
      exact ⟨h1, h2⟩
  | buttonTap v d =>
    by_cases hcv : getConv v st.conv = ConvState.askQuestions
    · rw [step_tap_askQ v d st hcv]
      refine ⟨fun u p hp => ?_, fun u p hcu hp => ?_⟩
      · have hp2 : List.lookup u (handleAnswer v d st.players).1 = some p := hp
        by_cases huv : u = v
        · subst huv
          rcases handleAnswer_cases u d st.players with
            ⟨q, hq1, hq2, hq3⟩ | ⟨q, hq1, hq2, hq3⟩ | ⟨hq1, hq3⟩
          · rw [hq3] at hp2
            exact h1 u p hp2
          · rw [hq3, lookup_setA_self] at hp2
            cases hp2
            have hsok := (h1 u q hq1).1
            refine ⟨?_, ?_⟩
            · show (if chosenOf d = Int.ofNat (correctIndexAt q.q_index)
                  then q.score + 1 else q.score) ≤ q.q_index + 1
              by_cases hhit : chosenOf d = Int.ofNat (correctIndexAt q.q_index)
              · rw [if_pos hhit]
                omega
              · rw [if_neg hhit]
                omega
            · show q.q_index + 1 ≤ questions.length
              omega
          · rw [hq3, lookup_setA_self] at hp2
            cases hp2
            refine ⟨?_, ?_⟩
            · show (if chosenOf d = Int.ofNat (correctIndexAt 0) then 1 else 0) ≤ 1
              by_cases hhit : chosenOf d = Int.ofNat (correctIndexAt 0)
              · rw [if_pos hhit]
              · rw [if_neg hhit]
                omega
            · show (1 : Nat) ≤ questions.length
              decide
        · rcases handleAnswer_cases v d st.players with
            ⟨q, hq1, hq2, hq3⟩ | ⟨q, hq1, hq2, hq3⟩ | ⟨hq1, hq3⟩
          · rw [hq3] at hp2
            exact h1 u p hp2
          · rw [hq3, lookup_setA_ne huv] at hp2
            exact h1 u p hp2
          · rw [hq3, lookup_setA_ne huv, lookup_setA_ne huv] at hp2
            exact h1 u p hp2
      · by_cases huv : u = v
        · subst huv
          have hcu2 : getConv u
              (setA u (handleAnswer u d st.players).2.2 st.conv)
              = ConvState.askName := hcu
          rw [getConv_setA_self] at hcu2
          exact absurd hcu2 (handleAnswer_conv_ne u d st.players)
        · have hp2 : List.lookup u (handleAnswer v d st.players).1 = some p := hp
          have hcu2 : getConv u
              (setA v (handleAnswer v d st.players).2.2 st.conv)
              = ConvState.askName := hcu
          rw [getConv_setA_ne huv] at hcu2
          rcases handleAnswer_cases v d st.players with
            ⟨q, hq1, hq2, hq3⟩ | ⟨q, hq1, hq2, hq3⟩ | ⟨hq1, hq3⟩
          · rw [hq3] at hp2
            exact h2 u p hcu2 hp2
          · rw [hq3, lookup_setA_ne huv] at hp2
            exact h2 u p hcu2 hp2
          · rw [hq3, lookup_setA_ne huv, lookup_setA_ne huv] at hp2
            exact h2 u p hcu2 hp2
    · rw [step_tap_other v d st hcv]
      exact ⟨h1, h2⟩
  | cancelCmd v =>
    refine ⟨fun u p hp => ?_, fun u p hcu hp => ?_⟩
    · rw [step_cancel_players] at hp
      exact h1 u p hp
    · rw [step_cancel_players] at hp
      by_cases huv : u = v
      · subst huv
        rw [step_cancel_conv_self] at hcu
        cases hcu
      · rw [step_cancel_conv_ne huv] at hcu
        exact h2 u p hcu hp
  | resetCmd v =>
    rw [step_reset_shape]
    refine ⟨fun u p hp => ?_, fun u p hcu hp => ?_⟩
    · have hp2 : List.lookup u (removeA v st.players) = some p := hp
      by_cases huv : u = v
      · subst huv
        rw [lookup_removeA_self] at hp2
        cases hp2
      · rw [lookup_removeA_ne huv] at hp2
        exact h1 u p hp2
    · have hp2 : List.lookup u (removeA v st.players) = some p := hp
      have hcu2 : getConv u st.conv = ConvState.askName := hcu
      by_cases huv : u = v
      · subst huv
        rw [lookup_removeA_self] at hp2
        cases hp2
      · rw [lookup_removeA_ne huv] at hp2
        exact h2 u p hcu2 hp2
  | lbCmd v =>
    rw [step_lb_shape]
    exact ⟨h1, h2⟩

theorem step_qIndex_mono (st : BotState) (e : Event) (h : StoreInv st)
    (u : String) (p p2 : PlayerRec)
    (hp : List.lookup u st.players = some p)
    (hp2 : List.lookup u (step st e).1.players = some p2) :
    p2.q_index = p.q_index ∨ p2.q_index = p.q_index + 1
    ∨ (e = Event.startCmd u ∧ p2.q_index = 0) := by
  obtain ⟨h1, h2⟩ := h
  cases e with
  | startCmd v =>
    rw [step_start_players] at hp2
    by_cases huv : u = v
    · subst huv
      rw [lookup_setA_self] at hp2
      cases hp2
      exact Or.inr (Or.inr ⟨rfl, rfl⟩)
    · rw [lookup_setA_ne huv, hp] at hp2
      cases hp2
      exact Or.inl rfl
  | textMsg v c =>
    by_cases hcv : getConv v st.conv = ConvState.askName
    · have hp3 : List.lookup u (askNameHandler v c st.players).1 = some p2 := by
        rw [step_text_askName v c st hcv] at hp2
        exact hp2
      rcases askNameHandler_players v c st.players with hres | ⟨name, hres⟩
      · rw [hres, hp] at hp3
        cases hp3
        exact Or.inl rfl
      · by_cases huv : u = v
        · subst huv
          rw [hres, lookup_setA_self] at hp3
          cases hp3
          have hq0 := h2 u p hcv hp
          exact Or.inl hq0.symm
        · rw [hres, lookup_setA_ne huv, hp] at hp3
          cases hp3
          exact Or.inl rfl
    · rw [step_text_other v c st hcv, hp] at hp2
      cases hp2
      exact Or.inl rfl
  | buttonTap v d =>
    by_cases hcv : getConv v st.conv = ConvState.askQuestions
    · have hp3 : List.lookup u (handleAnswer v d st.players).1 = some p2 := by
        rw [step_tap_askQ v d st hcv] at hp2
        exact hp2
      rcases handleAnswer_cases v d st.players with
        ⟨q, hq1, hq2, hq3⟩ | ⟨q, hq1, hq2, hq3⟩ | ⟨hq1, hq3⟩
      · rw [hq3, hp] at hp3
        cases hp3
        exact Or.inl rfl
      · by_cases huv : u = v
        · subst huv
          rw [hq3, lookup_setA_self] at hp3
          cases hp3
          have hqp : q = p := Option.some.inj (hq1.symm.trans hp)
          subst hqp
          exact Or.inr (Or.inl rfl)
        · rw [hq3, lookup_setA_ne huv, hp] at hp3
          cases hp3
          exact Or.inl rfl
      · by_cases huv : u = v
        · subst huv
          rw [hq1] at hp
          cases hp
        · rw [hq3, lookup_setA_ne huv, lookup_setA_ne huv, hp] at hp3
          cases hp3
          exact Or.inl rfl
    · rw [step_tap_other v d st hcv, hp] at hp2
      cases hp2
      exact Or.inl rfl
  | cancelCmd v =>
    rw [step_cancel_players, hp] at hp2
    cases hp2
    exact Or.inl rfl
  | resetCmd v =>
    have hp3 : List.lookup u (removeA v st.players) = some p2 := by
      rw [step_reset_shape] at hp2
      exact hp2
    by_cases huv : u = v
    · subst huv
      rw [lookup_removeA_self] at hp3
      cases hp3
    · rw [lookup_removeA_ne huv, hp] at hp3
      cases hp3
      exact Or.inl rfl
  | lbCmd v =>
    rw [step_lb_shape, hp] at hp2
    cases hp2
    exact Or.inl rfl

/-- C5: in every state reachable from a fresh start, every stored session
satisfies `score ≤ len(quiz)` and `qIndex ≤ len(quiz)` (both fields are `Nat`,
hence also ≥ 0); and across any further event, a surviving session's `qIndex`
either stays, advances by exactly 1 (an answered question), or is reset to 0 —
the latter only by that user's own `begin` command. -/
theorem session_bounds_and_monotone (st : BotState) (h : Reachable st) :
    (∀ u p, List.lookup u st.players = some p →
      p.score ≤ questions.length ∧ p.q_index ≤ questions.length)
    ∧ ∀ (e : Event) (u : String) (p p2 : PlayerRec),
        List.lookup u st.players = some p →
        List.lookup u (step st e).1.players = some p2 →
        p2.q_index = p.q_index ∨ p2.q_index = p.q_index + 1
        ∨ (e = Event.startCmd u ∧ p2.q_index = 0) := by
  have hinv : StoreInv st := by
    induction h with
    | init => exact storeInv_init
    | next e hs ih => exact storeInv_step _ e ih
  refine ⟨fun u p hp => ?_, fun e u p p2 hp hp2 => step_qIndex_mono st e hinv u p p2 hp hp2⟩
  have hsok := hinv.1 u p hp
  exact ⟨le_trans hsok.1 hsok.2, hsok.2⟩

theorem session_bounds_witness :
    (PlayerRec.mk "" 0 0).score ≤ questions.length
    ∧ (PlayerRec.mk "" 0 0).q_index ≤ questions.length :=
  (session_bounds_and_monotone (step initState (Event.startCmd "u")).1
      (Reachable.next (Event.startCmd "u") Reachable.init)).1 "u" ⟨"", 0, 0⟩ (by decide)
